import Mathlib

/-!
Verification of the API_Scoper repository (`api-doc-enum.py`).

The source is a Python script that classifies API-documentation files
(Swagger/OpenAPI vs Postman collections) and produces per-file summaries:
total endpoints, HTTP-method distribution, and total parameters.

We shallowly embed the script over a model of decoded JSON/YAML values
(`JVal`).  Python operations that can raise (`in` on a non-container,
`x[key]`, `len`, `.upper()`, `.items()`, `.get`) are embedded as
`Except String` computations whose error strings name the Python
exception class that would be raised.  Dictionaries are association
lists in insertion order, matching Python dict semantics (JSON objects
have unique string keys; assignment updates the existing entry in place
or appends a fresh one at the end).
-/

set_option autoImplicit false

namespace APIScoper

/-- A decoded JSON/YAML document: Python dicts (string keys, insertion
order), lists, strings, numbers, booleans and `None`. -/
inductive JVal : Type where
  | obj : List (String × JVal) → JVal
  | arr : List JVal → JVal
  | str : String → JVal
  | num : Int → JVal
  | bool : Bool → JVal
  | null : JVal

/-- First value stored under key `k`, like a Python dict lookup
(dict keys are unique, so "first" is "the" entry). -/
def findVal : List (String × JVal) → String → Option JVal
  | [], _ => none
  | (k', v) :: rest, k => if k' == k then some v else findVal rest k

/-- Python `str.upper()` (character-wise upper-casing; agrees with the
source on the ASCII method names the script compares). -/
def pyUpper (s : String) : String :=
  String.mk (s.data.map Char.toUpper)

/-- Tests that the first list is a prefix of the second. -/
def listStartsWith : List Char → List Char → Bool
  | [], _ => true
  | _ :: _, [] => false
  | a :: as, b :: bs => a == b && listStartsWith as bs

/-- Tests that `needle` occurs as a contiguous sublist. -/
def listHasSub (needle : List Char) : List Char → Bool
  | [] => needle.isEmpty
  | c :: rest => listStartsWith needle (c :: rest) || listHasSub needle rest

/-- Python substring test `needle in hay` on strings. -/
def strContains (hay needle : String) : Bool :=
  listHasSub needle.data hay.data

/-- Python `str.endswith`: `s` ends with `sfx`. -/
def strEndsWith (s sfx : String) : Bool :=
  listStartsWith sfx.data.reverse s.data.reverse

/-- Python `k in kvs` on a dict: key membership. -/
def objHasKey (kvs : List (String × JVal)) (k : String) : Bool :=
  kvs.any (fun p => p.1 == k)

/-- Python `k in v` for a string `k`: key membership on dicts, element
membership on lists (a string only ever equals a string), substring on
strings; `TypeError` on non-containers. -/
def pyIn (k : String) (v : JVal) : Except String Bool :=
  match v with
  | .obj kvs => .ok (objHasKey kvs k)
  | .arr xs => .ok (xs.any (fun x => match x with | .str s => s == k | _ => false))
  | .str s => .ok (strContains s k)
  | _ => .error "TypeError"

/-- Python `v[k]` for a string subscript `k`: dict lookup (`KeyError`
when absent), `TypeError` on every other value. -/
def pyGetItem (v : JVal) (k : String) : Except String JVal :=
  match v with
  | .obj kvs =>
      match findVal kvs k with
      | some r => .ok r
      | none => .error "KeyError"
  | _ => .error "TypeError"

/-- Python `len(v)`: defined on dicts, lists and strings, `TypeError`
otherwise. -/
def pyLen (v : JVal) : Except String Nat :=
  match v with
  | .obj kvs => .ok kvs.length
  | .arr xs => .ok xs.length
  | .str s => .ok s.length
  | _ => .error "TypeError"

/-- Embeds `identify_api_document(content)`: `"swagger"` when `"swagger" in
content or "openapi" in content`, else `"postman"` when `"info" in
content and "item" in content`, else `"unknown"`.  The membership tests
follow Python `in` semantics and can raise. -/
def identify_api_document (content : JVal) : Except String String := do
  if (← pyIn "swagger" content) then
    .ok "swagger"
  else if (← pyIn "openapi" content) then
    .ok "swagger"
  else if (← pyIn "info" content) then
    if (← pyIn "item" content) then .ok "postman" else .ok "unknown"
  else
    .ok "unknown"

/-- Processing of the loop body of `extract_postman_items` when the
iterated element is a string (as happens when the "items list" is a
dict, whose iteration yields its keys): `'request' in item` and
`'item' in item` are substring tests, and a hit leads to string
subscripting, a `TypeError`. -/
def extractFromStrKeys : List String → Except String (List JVal)
  | [] => .ok []
  | k :: rest =>
      if strContains k "request" then .error "TypeError"
      else if strContains k "item" then .error "TypeError"
      else extractFromStrKeys rest

mutual

/-- Embeds `extract_postman_items(items_list)`: iterate over `items_list`
(Python iteration: a list yields its elements, a dict its keys, a
string its characters, anything else raises `TypeError`), collecting
`item['request']` for items with a `'request'` key and recursing into
`item['item']` for items with an `'item'` key. -/
def extract_postman_items : JVal → Except String (List JVal)
  | .arr items => extractFromList items
  | .obj kvs => extractFromStrKeys (kvs.map (fun p => p.1))
  | .str s => extractFromStrKeys (s.data.map (fun c => String.mk [c]))
  | _ => .error "TypeError"
termination_by v => sizeOf v

/-- The `for item in items_list` loop of `extract_postman_items`,
accumulating `requests` left to right; an exception raised while
processing one item aborts the whole call. -/
def extractFromList : List JVal → Except String (List JVal)
  | [] => .ok []
  | item :: rest => do
      let fromItem ← extractItem item
      let fromRest ← extractFromList rest
      .ok (fromItem ++ fromRest)
termination_by l => sizeOf l

/-- One iteration of the `extract_postman_items` loop: check
`'request' in item` (appending `item['request']`), then `'item' in
item` (recursing into `item['item']`).  On a dict both are key
lookups; on a list or string a hit means string subscripting and hence
`TypeError`; on any other value the membership test itself raises. -/
def extractItem : JVal → Except String (List JVal)
  | .obj kvs =>
      let reqs : List JVal := match findVal kvs "request" with
        | some r => [r]
        | none => []
      match h : findVal kvs "item" with
      | some sub => do
          let fromSub ← extract_postman_items sub
          .ok (reqs ++ fromSub)
      | none => .ok reqs
  | .arr elems =>
      if elems.any (fun x => match x with | .str s => s == "request" | _ => false) then
        .error "TypeError"
      else if elems.any (fun x => match x with | .str s => s == "item" | _ => false) then
        .error "TypeError"
      else .ok []
  | .str s =>
      if strContains s "request" then .error "TypeError"
      else if strContains s "item" then .error "TypeError"
      else .ok []
  | _ => .error "TypeError"
termination_by v => sizeOf v
decreasing_by
  have key : ∀ (l : List (String × JVal)) (k : String) (v : JVal),
      findVal l k = some v → sizeOf v < sizeOf l := by
    intro l
    induction l with
    | nil => intro k v hv; simp [findVal] at hv
    | cons p rest ih =>
        intro k v hv
        obtain ⟨k', v'⟩ := p
        by_cases hk : (k' == k) = true
        · simp [findVal, hk] at hv
          subst hv
          simp
          omega
        · simp [findVal, hk] at hv
          have := ih k v hv
          simp
          omega
  have := key kvs "item" sub h
  simp
  omega

end

/-- Python `d.get(k, dflt)` on a dict modelled as an association list. -/
def dictGetD : List (String × Nat) → String → Nat → Nat
  | [], _, dflt => dflt
  | (k', v) :: rest, k, dflt => if k' == k then v else dictGetD rest k dflt

/-- Python `k in d` on a dict. -/
def hasKey (d : List (String × Nat)) (k : String) : Bool :=
  d.any (fun p => p.1 == k)

/-- Python `d[k] = v` on a dict: update the existing entry in place,
or append a fresh entry at the end (dict keys are unique and insertion
order is preserved). -/
def dictSet : List (String × Nat) → String → Nat → List (String × Nat)
  | [], k, v => [(k, v)]
  | (k', v') :: rest, k, v =>
      if k' == k then (k, v) :: rest else (k', v') :: dictSet rest k v

/-- The `details` dictionary built by both parsers:
`"Total Requests/Endpoints"`, `"HTTP Methods Distribution"` and
`"Total Parameters"`. -/
structure Details : Type where
  totalEndpoints : Nat
  methodDistribution : List (String × Nat)
  totalParameters : Nat
deriving DecidableEq

/-- The initial `"HTTP Methods Distribution"` dictionary, in source
order. -/
def fixedDistribution : List (String × Nat) :=
  [("GET", 0), ("POST", 0), ("PUT", 0), ("DELETE", 0),
   ("PATCH", 0), ("HEAD", 0), ("OPTIONS", 0), ("UNKNOWN", 0)]

/-- The key set of `fixedDistribution`, in source order. -/
def fixedKeys : List String :=
  ["GET", "POST", "PUT", "DELETE", "PATCH", "HEAD", "OPTIONS", "UNKNOWN"]

/-- The `details` value both parsers start from. -/
def initDetails : Details :=
  { totalEndpoints := 0, methodDistribution := fixedDistribution, totalParameters := 0 }

/-- Embeds `count_schema_parameters(schema)`: `len(schema["properties"])` when
`"properties" in schema`; else when `"items" in schema`, inspect one
level (`len` of the items' properties, `1` for an items `"$ref"`, else
`0`); else `0`.  Membership, subscripting and `len` follow Python
semantics and can raise. -/
def count_schema_parameters (schema : JVal) : Except String Nat := do
  if (← pyIn "properties" schema) then
    pyLen (← pyGetItem schema "properties")
  else if (← pyIn "items" schema) then
    let items ← pyGetItem schema "items"
    if (← pyIn "properties" items) then
      pyLen (← pyGetItem items "properties")
    else if (← pyIn "$ref" items) then
      .ok 1
    else
      .ok 0
  else
    .ok 0

/-- The `for content_type, schema in request_body["content"].items()`
loop of `count_request_body_parameters` (the loop variable the source
calls `schema` is really the media-type object). -/
def countContentEntries : List (String × JVal) → Except String Nat
  | [] => .ok 0
  | (_, media) :: rest => do
      let n ← (do
        if (← pyIn "schema" media) then
          count_schema_parameters (← pyGetItem media "schema")
        else
          .ok 0)
      let m ← countContentEntries rest
      .ok (n + m)

/-- Embeds `count_request_body_parameters(request_body)`: `0` when
`"content"` is not in `request_body`; otherwise sum
`count_schema_parameters` over the media-type entries that have a
`"schema"` key.  `request_body["content"].items()` raises
`AttributeError` when the `"content"` value is not a dict. -/
def count_request_body_parameters (request_body : JVal) : Except String Nat := do
  if (← pyIn "content" request_body) then
    match (← pyGetItem request_body "content") with
    | .obj entries => countContentEntries entries
    | _ => .error "AttributeError"
  else
    .ok 0

/-- The `total_parameters` computed for one recognized swagger
operation: `len(operation["parameters"])` when `"parameters" in
operation`, plus `count_request_body_parameters(operation["requestBody"])`
when `"requestBody" in operation`. -/
def swaggerOpParams (operation : JVal) : Except String Nat := do
  let p1 ← (do
    if (← pyIn "parameters" operation) then
      pyLen (← pyGetItem operation "parameters")
    else
      .ok 0)
  let p2 ← (do
    if (← pyIn "requestBody" operation) then
      count_request_body_parameters (← pyGetItem operation "requestBody")
    else
      .ok 0)
  .ok (p1 + p2)

/-- The body of the swagger `for method, operation in path_info.items()`
loop: when `method.upper()` is a key of the current distribution dict,
increment that bucket and `"Total Requests/Endpoints"` and add the
operation's parameter total to `"Total Parameters"`; otherwise leave
`details` unchanged (the pair is dropped). -/
def swaggerProcessOp (d : Details) (method : String) (operation : JVal) :
    Except String Details :=
  if hasKey d.methodDistribution (pyUpper method) then
    match swaggerOpParams operation with
    | .ok p =>
        .ok { totalEndpoints := d.totalEndpoints + 1,
              methodDistribution :=
                dictSet d.methodDistribution (pyUpper method)
                  (dictGetD d.methodDistribution (pyUpper method) 0 + 1),
              totalParameters := d.totalParameters + p }
    | .error e => .error e
  else
    .ok d

/-- The swagger `for method, operation in path_info.items()` loop. -/
def swaggerProcessOps (d : Details) : List (String × JVal) → Except String Details
  | [] => .ok d
  | (method, operation) :: rest => do
      let d' ← swaggerProcessOp d method operation
      swaggerProcessOps d' rest

/-- One iteration of the swagger `for path, path_info in paths.items()`
loop: `path_info.items()` raises `AttributeError` unless `path_info`
is a dict. -/
def swaggerProcessPath (d : Details) (pathInfo : JVal) : Except String Details :=
  match pathInfo with
  | .obj ops => swaggerProcessOps d ops
  | _ => .error "AttributeError"

/-- The swagger `for path, path_info in paths.items()` loop. -/
def swaggerProcessPaths (d : Details) : List (String × JVal) → Except String Details
  | [] => .ok d
  | (_, pathInfo) :: rest => do
      let d' ← swaggerProcessPath d pathInfo
      swaggerProcessPaths d' rest

/-- Embeds `parse_swagger_content(content)`: `paths = content.get("paths", {})`
(`AttributeError` unless `content` is a dict), then the nested loops
over `paths.items()` (`AttributeError` unless `paths` is a dict). -/
def parse_swagger_content (content : JVal) : Except String Details :=
  match content with
  | .obj kvs =>
      match (findVal kvs "paths").getD (JVal.obj []) with
      | .obj pathEntries => swaggerProcessPaths initDetails pathEntries
      | _ => .error "AttributeError"
  | _ => .error "AttributeError"

/-- The body of the postman `for request in requests` loop: only a
dict request with a `"method"` key is inspected; `request['method'].upper()`
raises `AttributeError` unless the method is a string; the bucket for
the upper-cased method is bumped via `.get(method, 0) + 1` (which can
insert a new key); and only inside this branch, a dict `"url"` value
with a `"query"` key adds `len(request['url']['query'])` to
`"Total Parameters"`. -/
def postmanProcessRequest (d : Details) (request : JVal) : Except String Details :=
  match request with
  | .obj kvs =>
      match findVal kvs "method" with
      | some (.str m) =>
          let mu := pyUpper m
          let d1 : Details :=
            { d with methodDistribution :=
                dictSet d.methodDistribution mu (dictGetD d.methodDistribution mu 0 + 1) }
          match findVal kvs "url" with
          | some (.obj urlKvs) =>
              match findVal urlKvs "query" with
              | some q =>
                  match pyLen q with
                  | .ok n => .ok { d1 with totalParameters := d1.totalParameters + n }
                  | .error e => .error e
              | none => .ok d1
          | _ => .ok d1
      | some _ => .error "AttributeError"
      | none => .ok d
  | _ => .ok d

/-- The postman `for request in requests` loop. -/
def postmanProcessRequests (d : Details) : List JVal → Except String Details
  | [] => .ok d
  | r :: rest => do
      let d' ← postmanProcessRequest d r
      postmanProcessRequests d' rest

/-- Embeds `parse_postman_content(content)`: flatten `content['item']` with
`extract_postman_items`, set `"Total Requests/Endpoints"` to the number
of flattened requests, then run the per-request loop. -/
def parse_postman_content (content : JVal) : Except String Details := do
  let itemsVal ← pyGetItem content "item"
  let requests ← extract_postman_items itemsVal
  postmanProcessRequests { initDetails with totalEndpoints := requests.length } requests

/-- The value stored per file in the `results` dict of
`analyze_directory`: either the summary `details` dict or the sentinel
`{"message": "Unknown API documentation type."}`. -/
inductive FileResult : Type where
  | summary : Details → FileResult
  | message : String → FileResult
deriving DecidableEq

/-- Modelled from the spec: file enumeration and JSON/YAML decoding are
external collaborators, so one directory entry is a file name together
with the outcome of decoding that file — either a parsed document or
the decode exception's message. -/
def DirEntry : Type := String × Except String JVal

/-- The extension filter of `analyze_directory`. -/
def matchesExtension (f : String) : Bool :=
  strEndsWith f ".json" || strEndsWith f ".yaml" || strEndsWith f ".yml"

/-- The per-file `try` body of `analyze_directory`: decode, classify,
dispatch to the matching parser, or produce the unknown-type sentinel. -/
def processFile (decoded : Except String JVal) : Except String FileResult := do
  let content ← decoded
  let docType ← identify_api_document content
  if docType == "postman" then
    FileResult.summary <$> parse_postman_content content
  else if docType == "swagger" then
    FileResult.summary <$> parse_swagger_content content
  else
    .ok (FileResult.message "Unknown API documentation type.")

/-- Embeds `analyze_directory`: process each matching file in listing order;
a successful file appends `(file, details)` to `results` and a raised
exception appends `(file, message)` to `errors`, never aborting the
batch. -/
def analyze_directory : List (String × Except String JVal) →
    List (String × FileResult) × List (String × String)
  | [] => ([], [])
  | (f, v) :: rest =>
      let acc := analyze_directory rest
      if matchesExtension f then
        match processFile v with
        | .ok res => ((f, res) :: acc.1, acc.2)
        | .error msg => (acc.1, (f, msg) :: acc.2)
      else
        acc

/-! ### Claim-side definitions

Definitions used only to *state* the claims: the claim's model of a
Postman item tree, the sequence of methods a swagger document offers,
the total of all distribution buckets, and the schema-counting contract
in the spec's own words. -/

/-- Holds (as `true`) exactly on dict values. -/
def isMapping : JVal → Bool
  | .obj _ => true
  | _ => false

/-- The sum of all counts of a method-distribution dict. -/
def distSum (d : List (String × Nat)) : Nat :=
  (d.map Prod.snd).sum

/-- The method keys a path-info value offers to the swagger loop
(`path_info.items()` ranges over its entries when it is a dict). -/
def pathMethods (pathInfo : JVal) : List String :=
  match pathInfo with
  | .obj ops => ops.map Prod.fst
  | _ => []

/-- All `(method, operation)` pair method names of a swagger document,
in traversal order: the concatenation over `paths.items()` of each
path-info's method keys. -/
def swaggerMethods (content : JVal) : List String :=
  match content with
  | .obj kvs =>
      match (findVal kvs "paths").getD (JVal.obj []) with
      | .obj pathEntries => (pathEntries.map (fun p => pathMethods p.2)).flatten
      | _ => []
  | _ => []

mutual

/-- The claim's model of one Postman item: possibly a `"request"`
object (an arbitrary document value) and possibly a nested `"item"`
sequence. -/
inductive PItem : Type where
  | node : Option JVal → Option PItemList → PItem

/-- The claim's model of a Postman item sequence. -/
inductive PItemList : Type where
  | nil : PItemList
  | cons : PItem → PItemList → PItemList

end

mutual

/-- Encode one claim-side item as the document value the script reads. -/
def encodeItem : PItem → JVal
  | .node none none => JVal.obj []
  | .node (some r) none => JVal.obj [("request", r)]
  | .node none (some s) => JVal.obj [("item", JVal.arr (encodeList s))]
  | .node (some r) (some s) => JVal.obj [("request", r), ("item", JVal.arr (encodeList s))]

/-- Encode a claim-side item sequence. -/
def encodeList : PItemList → List JVal
  | .nil => []
  | .cons i rest => encodeItem i :: encodeList rest

end

mutual

/-- The leaf request objects of one item in depth-first pre-order: its
own request first, then the requests of its sub-items. -/
def flattenItem : PItem → List JVal
  | .node req sub =>
      (match req with | some r => [r] | none => []) ++
      (match sub with | some s => flattenList s | none => [])

/-- The leaf request objects of an item sequence in depth-first
pre-order. -/
def flattenList : PItemList → List JVal
  | .nil => []
  | .cons i rest => flattenItem i ++ flattenList rest

end

/-- The claim's well-shapedness for a schema: a mapping whose
`"properties"` (when present) is a mapping, and otherwise whose
`"items"` (when present) is a mapping whose own `"properties"` (when
present) is a mapping. -/
def schemaShapeOk : JVal → Bool
  | .obj kvs =>
      match findVal kvs "properties" with
      | some (.obj _) => true
      | some _ => false
      | none =>
          match findVal kvs "items" with
          | some (.obj ikvs) =>
              (match findVal ikvs "properties" with
               | some (.obj _) => true
               | some _ => false
               | none => true)
          | some _ => false
          | none => true
  | _ => false

/-- The claim's well-shapedness for one media-type entry: a mapping
whose `"schema"` (when present) is well-shaped. -/
def mediaShapeOk : JVal → Bool
  | .obj mkvs =>
      (match findVal mkvs "schema" with
       | some s => schemaShapeOk s
       | none => true)
  | _ => false

/-- The claim's well-shapedness for a `requestBody`: a mapping whose
`"content"` (when present) is a mapping of media-type entries, each
well-shaped. -/
def bodyShapeOk : JVal → Bool
  | .obj kvs =>
      match findVal kvs "content" with
      | some (.obj entries) => entries.all (fun e => mediaShapeOk e.2)
      | some _ => false
      | none => true
  | _ => false

/-- Modelled from the spec's words (the claim's schema score): a schema
with `"properties"` scores the number of entries in that mapping; else
one with `"items"` scores the number of properties of `items` when
`items` has `"properties"`, exactly `1` when `items` instead has
`"$ref"`, and `0` otherwise; a schema with neither scores `0`. -/
def claimSchemaScore : JVal → Nat
  | .obj kvs =>
      match findVal kvs "properties" with
      | some (.obj props) => props.length
      | some _ => 0
      | none =>
          match findVal kvs "items" with
          | some (.obj ikvs) =>
              (match findVal ikvs "properties" with
               | some (.obj iprops) => iprops.length
               | some _ => 0
               | none => if objHasKey ikvs "$ref" then 1 else 0)
          | _ => 0
  | _ => 0

/-- The claim's score for one media-type entry: the schema score of
its `"schema"` value when present, else `0`. -/
def claimMediaScore : JVal → Nat
  | .obj mkvs =>
      (match findVal mkvs "schema" with
       | some s => claimSchemaScore s
       | none => 0)
  | _ => 0

/-- Modelled from the spec's words (the claim's request-body count):
`0` without a `"content"` key, otherwise the sum over the media-type
entries under `"content"` that have a `"schema"` key of that schema's
score. -/
def claimBodyCount : JVal → Nat
  | .obj kvs =>
      match findVal kvs "content" with
      | some (.obj entries) => (entries.map (fun e => claimMediaScore e.2)).sum
      | _ => 0
  | _ => 0

/-- A request value that lacks a `"method"` key (or is not a mapping at
all), as described by claim C7. -/
def lacksMethod (r : JVal) : Bool :=
  match r with
  | .obj kvs => !(objHasKey kvs "method")
  | _ => true

/-! ### Concrete example documents used by witnesses and
counterexamples -/

/-- The claim C2 example: `paths = {"/a": {"get", "head"}, "/b":
{"post"}}` with no parameters anywhere. -/
def swaggerExampleDoc : JVal :=
  JVal.obj [("swagger", JVal.str "2.0"),
    ("paths", JVal.obj
      [("/a", JVal.obj [("get", JVal.obj []), ("head", JVal.obj [])]),
       ("/b", JVal.obj [("post", JVal.obj [])])])]

/-- Example `requestBody.content["application/json"].schema = {"properties":
{"x": 1, "y": 2}}`. -/
def bodyExampleProps : JVal :=
  JVal.obj [("content", JVal.obj
    [("application/json", JVal.obj
      [("schema", JVal.obj
        [("properties", JVal.obj [("x", JVal.num 1), ("y", JVal.num 2)])])])])]

/-- Example `requestBody.content["application/json"].schema = {"items":
{"$ref": "#/components/schemas/Foo"}}`. -/
def bodyExampleRef : JVal :=
  JVal.obj [("content", JVal.obj
    [("application/json", JVal.obj
      [("schema", JVal.obj
        [("items", JVal.obj [("$ref", JVal.str "#/components/schemas/Foo")])])])])]

/-- A Postman collection whose only request has no `"method"` key but
does have a two-element `url.query` array. -/
def postmanNoMethodDoc : JVal :=
  JVal.obj [("info", JVal.obj []), ("item", JVal.arr
    [JVal.obj [("request", JVal.obj
      [("url", JVal.obj [("query", JVal.arr [JVal.str "a", JVal.str "b"])])])]])]

/-- A Postman collection whose only request carries the non-standard
method `"foo"`. -/
def postmanFooMethodDoc : JVal :=
  JVal.obj [("info", JVal.obj []), ("item", JVal.arr
    [JVal.obj [("request", JVal.obj [("method", JVal.str "foo")])]])]

/-- A valid Postman collection with one GET request, used by the batch
witness. -/
def postmanGetDoc : JVal :=
  JVal.obj [("info", JVal.obj []), ("item", JVal.arr
    [JVal.obj [("request", JVal.obj [("method", JVal.str "get")])]])]

/-- The summary the script computes for `swaggerExampleDoc`. -/
def swaggerExampleDetails : Details :=
  { totalEndpoints := 3,
    methodDistribution :=
      [("GET", 1), ("POST", 1), ("PUT", 0), ("DELETE", 0),
       ("PATCH", 0), ("HEAD", 1), ("OPTIONS", 0), ("UNKNOWN", 0)],
    totalParameters := 0 }

/-- The summary the script computes for `postmanNoMethodDoc`: one
endpoint, empty distribution, zero parameters. -/
def postmanNoMethodDetails : Details :=
  { totalEndpoints := 1, methodDistribution := fixedDistribution, totalParameters := 0 }

/-- The summary the script computes for `postmanFooMethodDoc`: the
distribution dict has gained the fresh key `"FOO"`. -/
def postmanFooMethodDetails : Details :=
  { totalEndpoints := 1,
    methodDistribution := fixedDistribution ++ [("FOO", 1)],
    totalParameters := 0 }

/-- The summary the script computes for `postmanGetDoc`. -/
def postmanGetDetails : Details :=
  { totalEndpoints := 1,
    methodDistribution :=
      [("GET", 1), ("POST", 0), ("PUT", 0), ("DELETE", 0),
       ("PATCH", 0), ("HEAD", 0), ("OPTIONS", 0), ("UNKNOWN", 0)],
    totalParameters := 0 }

/-- The decode failure of a malformed JSON file, as the aggregator's
collaborator reports it. -/
def badDecode : Except String JVal :=
  Except.error "Expecting value: line 1 column 1 (char 0)"

/-- A one-file listing preceding the malformed file in the C8 witness. -/
def batchPre : List (String × Except String JVal) :=
  [("good.json", .ok postmanGetDoc)]

/-- A one-file listing following the malformed file in the C8 witness. -/
def batchPost : List (String × Except String JVal) :=
  [("later.yaml", .ok swaggerExampleDoc)]

/-! ### Helper lemmas -/

theorem findVal_isSome (kvs : List (String × JVal)) (k : String) :
    (findVal kvs k).isSome = objHasKey kvs k := by
  induction kvs with
  | nil => rfl
  | cons p rest ih =>
      obtain ⟨k', v⟩ := p
      by_cases hk : (k' == k) = true <;>
        simp [findVal, objHasKey, hk, List.any_cons] <;>
        simpa [objHasKey] using ih

theorem pyIn_shape {k : String} {v : JVal} {b : Bool} (k' : String)
    (h : pyIn k v = .ok b) : ∃ b', pyIn k' v = .ok b' := by
  cases v <;> simp [pyIn] at h ⊢

theorem hasKey_iff_mem (d : List (String × Nat)) (k : String) :
    hasKey d k = true ↔ k ∈ d.map Prod.fst := by
  simp [hasKey, List.any_eq_true, List.mem_map, beq_iff_eq]

theorem dictGetD_dictSet_self (d : List (String × Nat)) (k : String) (v dflt : Nat) :
    dictGetD (dictSet d k v) k dflt = v := by
  induction d with
  | nil => simp [dictSet, dictGetD]
  | cons p rest ih =>
      obtain ⟨k', v'⟩ := p
      by_cases hk : (k' == k) = true <;> simp [dictSet, dictGetD, hk, ih]

theorem dictGetD_dictSet_ne (d : List (String × Nat)) {k k' : String} (v dflt : Nat)
    (h : ¬ k = k') : dictGetD (dictSet d k v) k' dflt = dictGetD d k' dflt := by
  induction d with
  | nil => simp [dictSet, dictGetD, h]
  | cons p rest ih =>
      obtain ⟨k₀, v₀⟩ := p
      by_cases hk : (k₀ == k) = true
      · have hk' : k₀ = k := by simpa using hk
        subst hk'
        simp [dictSet, dictGetD, h]
      · simp [dictSet, dictGetD, hk, ih]

theorem keys_dictSet_of_hasKey (d : List (String × Nat)) (k : String) (v : Nat)
    (h : hasKey d k = true) : (dictSet d k v).map Prod.fst = d.map Prod.fst := by
  induction d with
  | nil => simp [hasKey] at h
  | cons p rest ih =>
      obtain ⟨k₀, v₀⟩ := p
      by_cases hk : (k₀ == k) = true
      · have hk' : k₀ = k := by simpa using hk
        subst hk'
        simp [dictSet]
      · have h' : hasKey rest k = true := by
          simpa [hasKey, List.any_cons, hk] using h
        simp [dictSet, hk, ih h']

theorem hasKey_dictSet_mono (d : List (String × Nat)) (k : String) (v : Nat)
    (k' : String) (h : hasKey d k' = true) : hasKey (dictSet d k v) k' = true := by
  induction d with
  | nil => simp [hasKey] at h
  | cons p rest ih =>
      obtain ⟨k₀, v₀⟩ := p
      by_cases hk : (k₀ == k) = true
      · have hk0 : k₀ = k := by simpa using hk
        have hd : dictSet ((k₀, v₀) :: rest) k v = (k, v) :: rest := by
          simp [dictSet, hk]
        rw [hd]
        simp only [hasKey, List.any_cons, Bool.or_eq_true] at h ⊢
        rcases h with h | h
        · left; rw [hk0] at h; exact h
        · exact Or.inr h
      · have hd : dictSet ((k₀, v₀) :: rest) k v = (k₀, v₀) :: dictSet rest k v := by
          simp [dictSet, hk]
        rw [hd]
        simp only [hasKey, List.any_cons, Bool.or_eq_true] at h ⊢
        rcases h with h | h
        · exact Or.inl h
        · exact Or.inr (ih h)

theorem distSum_dictSet_succ (d : List (String × Nat)) (k : String) :
    distSum (dictSet d k (dictGetD d k 0 + 1)) = distSum d + 1 := by
  induction d with
  | nil => simp [dictSet, dictGetD, distSum]
  | cons p rest ih =>
      obtain ⟨k₀, v₀⟩ := p
      by_cases hk : (k₀ == k) = true
      · simp [dictSet, dictGetD, hk, distSum]
        omega
      · simp [dictSet, dictGetD, hk, distSum] at ih ⊢
        omega

/-! ### C4: the classifier on non-mapping documents -/

/-- C4 counterexample: the claim says a non-mapping document classifies
as Unknown, but a JSON array containing the strings `"info"` and
`"item"` classifies as `"postman"` (Python `in` on a list is element
membership). -/
theorem identify_nonmapping_counterexample :
    isMapping (JVal.arr [JVal.str "info", JVal.str "item"]) = false ∧
    identify_api_document (JVal.arr [JVal.str "info", JVal.str "item"]) = .ok "postman" := by
  constructor
  · rfl
  · rfl

/-- C4 amended: restricted to mapping documents the claimed decision
procedure holds — `"swagger"` when the top-level mapping has a
`"swagger"` or `"openapi"` key, else `"postman"` when it has both
`"info"` and `"item"`, else `"unknown"`.  (On non-mappings the code
follows Python `in` semantics instead of returning Unknown.) -/
theorem identify_on_mapping (kvs : List (String × JVal)) :
    identify_api_document (JVal.obj kvs) =
      .ok (if objHasKey kvs "swagger" || objHasKey kvs "openapi" then "swagger"
           else if objHasKey kvs "info" && objHasKey kvs "item" then "postman"
           else "unknown") := by
  by_cases h1 : objHasKey kvs "swagger" = true <;>
    by_cases h2 : objHasKey kvs "openapi" = true <;>
      by_cases h3 : objHasKey kvs "info" = true <;>
        by_cases h4 : objHasKey kvs "item" = true <;>
          simp [identify_api_document, pyIn, h1, h2, h3, h4, Bind.bind, Except.bind]

/-! ### C5: swagger cues win over postman cues -/

/-- C5: every document on which the `"swagger"` or `"openapi"`
membership test succeeds positively — in particular one that also
carries `"info"` and `"item"` — classifies as `"swagger"`, never
`"postman"`. -/
theorem identify_swagger_precedence (content : JVal)
    (h : pyIn "swagger" content = .ok true ∨ pyIn "openapi" content = .ok true) :
    identify_api_document content = .ok "swagger" := by
  obtain ⟨b0, hb0⟩ : ∃ b0, pyIn "swagger" content = .ok b0 := by
    rcases h with h | h
    · exact ⟨true, h⟩
    · exact pyIn_shape "swagger" h
  cases b0 with
  | true => simp [identify_api_document, hb0, Bind.bind, Except.bind]
  | false =>
      rcases h with h | h
      · rw [hb0] at h; simp at h
      · simp [identify_api_document, hb0, h, Bind.bind, Except.bind]

/-- C5 witness: `{"swagger": "2.0", "info": {}, "item": []}` satisfies
both heuristics and classifies as `"swagger"`. -/
theorem identify_swagger_precedence_witness :
    identify_api_document
      (JVal.obj [("swagger", JVal.str "2.0"), ("info", JVal.obj []), ("item", JVal.arr [])]) =
      .ok "swagger" :=
  identify_swagger_precedence
    (JVal.obj [("swagger", JVal.str "2.0"), ("info", JVal.obj []), ("item", JVal.arr [])])
    (Or.inl (by rfl))

/-! ### C1: the Postman extractor flattens completely in pre-order -/

theorem objHasKey_of_findVal_some {kvs : List (String × JVal)} {k : String} {v : JVal}
    (h : findVal kvs k = some v) : objHasKey kvs k = true := by
  rw [← findVal_isSome, h]; rfl

theorem objHasKey_of_findVal_none {kvs : List (String × JVal)} {k : String}
    (h : findVal kvs k = none) : objHasKey kvs k = false := by
  rw [← findVal_isSome, h]; rfl

mutual

theorem extractItem_encodeItem (i : PItem) :
    extractItem (encodeItem i) = .ok (flattenItem i) := by
  match i with
  | .node none none =>
      simp [encodeItem, extractItem, findVal, flattenItem]
  | .node (some r) none =>
      simp [encodeItem, extractItem, findVal, flattenItem]
  | .node none (some s) =>
      have hs := extractFromList_encodeList s
      simp [encodeItem, extractItem, findVal, flattenItem, extract_postman_items, hs,
        Bind.bind, Except.bind]
  | .node (some r) (some s) =>
      have hs := extractFromList_encodeList s
      simp [encodeItem, extractItem, findVal, flattenItem, extract_postman_items, hs,
        Bind.bind, Except.bind]

theorem extractFromList_encodeList (l : PItemList) :
    extractFromList (encodeList l) = .ok (flattenList l) := by
  match l with
  | .nil =>
      simp [encodeList, extractFromList, flattenList]
  | .cons i rest =>
      have hi := extractItem_encodeItem i
      have hr := extractFromList_encodeList rest
      simp [encodeList, extractFromList, flattenList, hi, hr, Bind.bind, Except.bind]

end

/-- C1: on every Postman item tree — a sequence of items, each possibly
carrying a `"request"` object and/or a nested `"item"` sequence, nested
to arbitrary depth — `extract_postman_items` returns exactly the
depth-first pre-order sequence of leaf request objects (an item's own
request before the requests of its sub-items), hence every leaf request
exactly once, with no duplicates and no omissions. -/
theorem postman_extract_flattens (l : PItemList) :
    extract_postman_items (JVal.arr (encodeList l)) = .ok (flattenList l) := by
  have h := extractFromList_encodeList l
  simp [extract_postman_items, h]

/-! ### C3: the request-body parameter counter matches its contract -/

theorem count_schema_matches_claim (s : JVal) (h : schemaShapeOk s = true) :
    count_schema_parameters s = .ok (claimSchemaScore s) := by
  cases s with
  | obj kvs =>
      rcases hp : findVal kvs "properties" with _ | v
      · have hp' := objHasKey_of_findVal_none hp
        rcases hi : findVal kvs "items" with _ | w
        · have hi' := objHasKey_of_findVal_none hi
          simp [count_schema_parameters, claimSchemaScore, pyIn, pyGetItem, hp, hi, hp', hi',
            Bind.bind, Except.bind]
        · have hi' := objHasKey_of_findVal_some hi
          cases w with
          | obj ikvs =>
              rcases hip : findVal ikvs "properties" with _ | u
              · have hip' := objHasKey_of_findVal_none hip
                simp only [count_schema_parameters, claimSchemaScore, pyIn, pyGetItem, hp, hi,
                  hip, hp', hi', hip', Bind.bind, Except.bind]
                by_cases hr : objHasKey ikvs "$ref" = true <;> simp [hr]
              · cases u with
                | obj iprops =>
                    have hip' := objHasKey_of_findVal_some hip
                    simp [count_schema_parameters, claimSchemaScore, pyIn, pyGetItem, pyLen,
                      hp, hi, hip, hp', hi', hip', Bind.bind, Except.bind]
                | arr xs => simp [schemaShapeOk, hp, hi, hip] at h
                | str st => simp [schemaShapeOk, hp, hi, hip] at h
                | num n => simp [schemaShapeOk, hp, hi, hip] at h
                | bool b => simp [schemaShapeOk, hp, hi, hip] at h
                | null => simp [schemaShapeOk, hp, hi, hip] at h
          | arr xs => simp [schemaShapeOk, hp, hi] at h
          | str st => simp [schemaShapeOk, hp, hi] at h
          | num n => simp [schemaShapeOk, hp, hi] at h
          | bool b => simp [schemaShapeOk, hp, hi] at h
          | null => simp [schemaShapeOk, hp, hi] at h
      · cases v with
        | obj props =>
            have hp' := objHasKey_of_findVal_some hp
            simp [count_schema_parameters, claimSchemaScore, pyIn, pyGetItem, pyLen,
              hp, hp', Bind.bind, Except.bind]
        | arr xs => simp [schemaShapeOk, hp] at h
        | str st => simp [schemaShapeOk, hp] at h
        | num n => simp [schemaShapeOk, hp] at h
        | bool b => simp [schemaShapeOk, hp] at h
        | null => simp [schemaShapeOk, hp] at h
  | arr xs => simp [schemaShapeOk] at h
  | str st => simp [schemaShapeOk] at h
  | num n => simp [schemaShapeOk] at h
  | bool b => simp [schemaShapeOk] at h
  | null => simp [schemaShapeOk] at h

theorem countContentEntries_matches (entries : List (String × JVal))
    (h : entries.all (fun e => mediaShapeOk e.2) = true) :
    countContentEntries entries = .ok ((entries.map (fun e => claimMediaScore e.2)).sum) := by
  induction entries with
  | nil => simp [countContentEntries]
  | cons e rest ih =>
      obtain ⟨mt, media⟩ := e
      simp only [List.all_cons, Bool.and_eq_true] at h
      obtain ⟨hm, hrest⟩ := h
      have ihr := ih hrest
      cases media with
      | obj mkvs =>
          rcases hs : findVal mkvs "schema" with _ | s
          · have hs' := objHasKey_of_findVal_none hs
            simp [countContentEntries, claimMediaScore, pyIn, pyGetItem, hs, hs', ihr,
              Bind.bind, Except.bind]
          · have hs' := objHasKey_of_findVal_some hs
            have hsok : schemaShapeOk s = true := by
              simpa [mediaShapeOk, hs] using hm
            have hc := count_schema_matches_claim s hsok
            simp [countContentEntries, claimMediaScore, pyIn, pyGetItem, hs, hs', ihr, hc,
              Bind.bind, Except.bind]
      | arr xs => simp [mediaShapeOk] at hm
      | str st => simp [mediaShapeOk] at hm
      | num n => simp [mediaShapeOk] at hm
      | bool b => simp [mediaShapeOk] at hm
      | null => simp [mediaShapeOk] at hm

/-- C3: on every well-shaped `requestBody` (mappings where the claim's
contract presupposes mappings), `count_request_body_parameters`
returns exactly the count the claim describes: `0` without a
`"content"` key, otherwise the sum over media-type entries with a
`"schema"` key of the schema's score — `properties` counts its
entries, `items.properties` counts its entries, an `items.$ref`
counts exactly `1`, anything else `0`. -/
theorem count_request_body_matches_claim (rb : JVal) (h : bodyShapeOk rb = true) :
    count_request_body_parameters rb = .ok (claimBodyCount rb) := by
  cases rb with
  | obj kvs =>
      rcases hc : findVal kvs "content" with _ | c
      · have hc' := objHasKey_of_findVal_none hc
        simp [count_request_body_parameters, claimBodyCount, pyIn, pyGetItem, hc, hc',
          Bind.bind, Except.bind]
      · cases c with
        | obj entries =>
            have hc' := objHasKey_of_findVal_some hc
            have hall : entries.all (fun e => mediaShapeOk e.2) = true := by
              simpa [bodyShapeOk, hc] using h
            have he := countContentEntries_matches entries hall
            simp [count_request_body_parameters, claimBodyCount, pyIn, pyGetItem, hc, hc', he,
              Bind.bind, Except.bind]
        | arr xs => simp [bodyShapeOk, hc] at h
        | str st => simp [bodyShapeOk, hc] at h
        | num n => simp [bodyShapeOk, hc] at h
        | bool b => simp [bodyShapeOk, hc] at h
        | null => simp [bodyShapeOk, hc] at h
  | arr xs => simp [bodyShapeOk] at h
  | str st => simp [bodyShapeOk] at h
  | num n => simp [bodyShapeOk] at h
  | bool b => simp [bodyShapeOk] at h
  | null => simp [bodyShapeOk] at h

/-- C3 witness: the claim's two concrete examples — a two-entry
`properties` mapping contributes exactly `2`, an `items.$ref`
contributes exactly `1`. -/
theorem count_request_body_matches_claim_witness :
    count_request_body_parameters bodyExampleProps = .ok 2 ∧
    count_request_body_parameters bodyExampleRef = .ok 1 := by
  have h1 := count_request_body_matches_claim bodyExampleProps (by rfl)
  have h2 := count_request_body_matches_claim bodyExampleRef (by rfl)
  exact ⟨h1.trans rfl, h2.trans rfl⟩

/-! ### Characterization of the swagger traversal -/

theorem swaggerProcessOp_ok {d d' : Details} {m : String} {op : JVal}
    (hkeys : d.methodDistribution.map Prod.fst = fixedKeys)
    (h : swaggerProcessOp d m op = .ok d') :
    d'.methodDistribution.map Prod.fst = fixedKeys ∧
    d'.totalEndpoints = d.totalEndpoints + (if pyUpper m ∈ fixedKeys then 1 else 0) ∧
    (∀ k, k ∈ fixedKeys →
      dictGetD d'.methodDistribution k 0 =
        dictGetD d.methodDistribution k 0 + (if pyUpper m = k then 1 else 0)) ∧
    distSum d'.methodDistribution =
      distSum d.methodDistribution + (if pyUpper m ∈ fixedKeys then 1 else 0) := by
  by_cases hrec : hasKey d.methodDistribution (pyUpper m) = true
  · have hmem : pyUpper m ∈ fixedKeys := by
      rw [← hkeys]; exact (hasKey_iff_mem _ _).mp hrec
    rcases hp : swaggerOpParams op with e | p
    · rw [swaggerProcessOp, if_pos hrec, hp] at h
      cases h
    · rw [swaggerProcessOp, if_pos hrec, hp] at h
      injection h with h'
      subst h'
      refine ⟨?_, by simp [hmem], ?_, by simp [hmem, distSum_dictSet_succ]⟩
      · show (dictSet d.methodDistribution (pyUpper m) _).map Prod.fst = fixedKeys
        rw [keys_dictSet_of_hasKey _ _ _ hrec, hkeys]
      · intro k hk
        by_cases he : pyUpper m = k
        · subst he
          simp [dictGetD_dictSet_self]
        · simp [dictGetD_dictSet_ne _ _ _ he, he]
  · have hmem : pyUpper m ∉ fixedKeys := by
      rw [← hkeys]
      intro hmm
      exact hrec ((hasKey_iff_mem _ _).mpr hmm)
    rw [swaggerProcessOp, if_neg hrec] at h
    injection h with h'
    subst h'
    refine ⟨hkeys, by simp [hmem], ?_, by simp [hmem]⟩
    intro k hk
    have hne : ¬ pyUpper m = k := fun he => hmem (he ▸ hk)
    simp [hne]

theorem swaggerProcessOps_ok (ops : List (String × JVal)) :
    ∀ (d d' : Details),
      d.methodDistribution.map Prod.fst = fixedKeys →
      swaggerProcessOps d ops = .ok d' →
      d'.methodDistribution.map Prod.fst = fixedKeys ∧
      d'.totalEndpoints = d.totalEndpoints +
        (ops.map Prod.fst).countP (fun m => decide (pyUpper m ∈ fixedKeys)) ∧
      (∀ k, k ∈ fixedKeys →
        dictGetD d'.methodDistribution k 0 =
          dictGetD d.methodDistribution k 0 +
            (ops.map Prod.fst).countP (fun m => pyUpper m == k)) ∧
      distSum d'.methodDistribution = distSum d.methodDistribution +
        (ops.map Prod.fst).countP (fun m => decide (pyUpper m ∈ fixedKeys)) := by
  induction ops with
  | nil =>
      intro d d' hkeys h
      simp [swaggerProcessOps] at h
      subst h
      simp [hkeys]
  | cons e rest ih =>
      intro d d' hkeys h
      obtain ⟨m, op⟩ := e
      rcases h1 : swaggerProcessOp d m op with e1 | d1
      · simp [swaggerProcessOps, h1, Bind.bind, Except.bind] at h
      · simp only [swaggerProcessOps, h1, Bind.bind, Except.bind] at h
        obtain ⟨hk1, he1, hg1, hs1⟩ := swaggerProcessOp_ok hkeys h1
        obtain ⟨hk2, he2, hg2, hs2⟩ := ih d1 d' hk1 h
        refine ⟨hk2, ?_, ?_, ?_⟩
        · rw [he2, he1, List.map_cons, List.countP_cons]
          by_cases hmem : pyUpper m ∈ fixedKeys <;> simp [hmem] <;> omega
        · intro k hk
          rw [hg2 k hk, hg1 k hk, List.map_cons, List.countP_cons]
          by_cases he : pyUpper m = k <;> simp [he, beq_iff_eq] <;> omega
        · rw [hs2, hs1, List.map_cons, List.countP_cons]
          by_cases hmem : pyUpper m ∈ fixedKeys <;> simp [hmem] <;> omega

theorem swaggerProcessPaths_ok (pes : List (String × JVal)) :
    ∀ (d d' : Details),
      d.methodDistribution.map Prod.fst = fixedKeys →
      swaggerProcessPaths d pes = .ok d' →
      d'.methodDistribution.map Prod.fst = fixedKeys ∧
      d'.totalEndpoints = d.totalEndpoints +
        ((pes.map (fun p => pathMethods p.2)).flatten).countP
          (fun m => decide (pyUpper m ∈ fixedKeys)) ∧
      (∀ k, k ∈ fixedKeys →
        dictGetD d'.methodDistribution k 0 =
          dictGetD d.methodDistribution k 0 +
            ((pes.map (fun p => pathMethods p.2)).flatten).countP
              (fun m => pyUpper m == k)) ∧
      distSum d'.methodDistribution = distSum d.methodDistribution +
        ((pes.map (fun p => pathMethods p.2)).flatten).countP
          (fun m => decide (pyUpper m ∈ fixedKeys)) := by
  induction pes with
  | nil =>
      intro d d' hkeys h
      simp [swaggerProcessPaths] at h
      subst h
      simp [hkeys]
  | cons e rest ih =>
      intro d d' hkeys h
      obtain ⟨path, pinfo⟩ := e
      rcases h1 : swaggerProcessPath d pinfo with e1 | d1
      · simp [swaggerProcessPaths, h1, Bind.bind, Except.bind] at h
      · simp only [swaggerProcessPaths, h1, Bind.bind, Except.bind] at h
        cases pinfo with
        | obj ops =>
            rw [swaggerProcessPath] at h1
            obtain ⟨hk1, he1, hg1, hs1⟩ := swaggerProcessOps_ok ops d d1 hkeys h1
            obtain ⟨hk2, he2, hg2, hs2⟩ := ih d1 d' hk1 h
            refine ⟨hk2, ?_, ?_, ?_⟩
            · rw [he2, he1]
              simp [pathMethods, List.countP_append]
              omega
            · intro k hk
              rw [hg2 k hk, hg1 k hk]
              simp [pathMethods, List.countP_append]
              omega
            · rw [hs2, hs1]
              simp [pathMethods, List.countP_append]
              omega
        | arr xs => simp [swaggerProcessPath] at h1
        | str st => simp [swaggerProcessPath] at h1
        | num n => simp [swaggerProcessPath] at h1
        | bool b => simp [swaggerProcessPath] at h1
        | null => simp [swaggerProcessPath] at h1

theorem parse_swagger_spec (content : JVal) (d : Details)
    (h : parse_swagger_content content = .ok d) :
    d.methodDistribution.map Prod.fst = fixedKeys ∧
    d.totalEndpoints = (swaggerMethods content).countP
      (fun m => decide (pyUpper m ∈ fixedKeys)) ∧
    (∀ k, k ∈ fixedKeys →
      dictGetD d.methodDistribution k 0 =
        (swaggerMethods content).countP (fun m => pyUpper m == k)) ∧
    distSum d.methodDistribution = (swaggerMethods content).countP
      (fun m => decide (pyUpper m ∈ fixedKeys)) := by
  cases content with
  | obj kvs =>
      cases hpv : (findVal kvs "paths").getD (JVal.obj []) with
      | obj pes =>
          rw [parse_swagger_content, hpv] at h
          have hinit : initDetails.methodDistribution.map Prod.fst = fixedKeys := by rfl
          obtain ⟨hk, he, hg, hs⟩ := swaggerProcessPaths_ok pes initDetails d hinit h
          have hsm : swaggerMethods (JVal.obj kvs) =
              (pes.map (fun p => pathMethods p.2)).flatten := by
            simp [swaggerMethods, hpv]
          refine ⟨hk, ?_, ?_, ?_⟩
          · rw [hsm]
            simpa [initDetails] using he
          · intro k hk'
            rw [hsm, hg k hk']
            have hz : dictGetD initDetails.methodDistribution k 0 = 0 := by
              fin_cases hk' <;> rfl
            rw [hz]
            omega
          · rw [hsm]
            simpa [initDetails, distSum, fixedDistribution] using hs
      | arr xs => rw [parse_swagger_content, hpv] at h; cases h
      | str st => rw [parse_swagger_content, hpv] at h; cases h
      | num n => rw [parse_swagger_content, hpv] at h; cases h
      | bool b => rw [parse_swagger_content, hpv] at h; cases h
      | null => rw [parse_swagger_content, hpv] at h; cases h
  | arr xs => simp [parse_swagger_content] at h
  | str st => simp [parse_swagger_content] at h
  | num n => simp [parse_swagger_content] at h
  | bool b => simp [parse_swagger_content] at h
  | null => simp [parse_swagger_content] at h

/-! ### C2: swagger method counting -/

/-- C2: whenever the swagger extractor returns a summary, the endpoint
total is exactly the number of `(method, operation)` pairs whose
upper-cased method is one of the fixed distribution keys, and each
fixed bucket holds exactly the number of pairs whose upper-cased
method equals that key — so a recognized pair increments its bucket
and the endpoint total by 1, and an unrecognized pair contributes to
neither. -/
theorem swagger_method_counting (content : JVal) (d : Details)
    (h : parse_swagger_content content = .ok d) :
    d.totalEndpoints = (swaggerMethods content).countP
      (fun m => decide (pyUpper m ∈ fixedKeys)) ∧
    (∀ k, k ∈ fixedKeys →
      dictGetD d.methodDistribution k 0 =
        (swaggerMethods content).countP (fun m => pyUpper m == k)) :=
  ⟨(parse_swagger_spec content d h).2.1, (parse_swagger_spec content d h).2.2.1⟩

/-- C2 witness: the claim's example document has three recognized
pairs (`get`, `head`, `post`), endpoint total 3 and buckets
GET = HEAD = POST = 1, everything else 0. -/
theorem swagger_method_counting_witness :
    swaggerExampleDetails.totalEndpoints =
      (swaggerMethods swaggerExampleDoc).countP
        (fun m => decide (pyUpper m ∈ fixedKeys)) ∧
    (∀ k, k ∈ fixedKeys →
      dictGetD swaggerExampleDetails.methodDistribution k 0 =
        (swaggerMethods swaggerExampleDoc).countP (fun m => pyUpper m == k)) :=
  swagger_method_counting swaggerExampleDoc swaggerExampleDetails (by rfl)

/-! ### Characterization of the postman per-request loop -/

theorem findVal_eq_none_of_not_objHasKey {kvs : List (String × JVal)} {k : String}
    (h : objHasKey kvs k = false) : findVal kvs k = none := by
  have hs := findVal_isSome kvs k
  rw [h] at hs
  exact Option.not_isSome_iff_eq_none.mp (by simp [hs])

theorem postmanProcessRequest_ok {d d' : Details} {r : JVal}
    (h : postmanProcessRequest d r = .ok d') :
    d'.totalEndpoints = d.totalEndpoints ∧
    (∀ k, hasKey d.methodDistribution k = true → hasKey d'.methodDistribution k = true) := by
  cases r with
  | obj kvs =>
      rcases hm : findVal kvs "method" with _ | mv
      · simp only [postmanProcessRequest, hm] at h
        injection h with h'
        subst h'
        exact ⟨rfl, fun k hk => hk⟩
      · cases mv with
        | str m =>
            rcases hu : findVal kvs "url" with _ | uv
            · simp only [postmanProcessRequest, hm, hu] at h
              injection h with h'
              subst h'
              exact ⟨rfl, fun k hk => hasKey_dictSet_mono _ _ _ k hk⟩
            · cases uv with
              | obj urlKvs =>
                  rcases hq : findVal urlKvs "query" with _ | q
                  · simp only [postmanProcessRequest, hm, hu, hq] at h
                    injection h with h'
                    subst h'
                    exact ⟨rfl, fun k hk => hasKey_dictSet_mono _ _ _ k hk⟩
                  · rcases hl : pyLen q with e | n
                    · simp [postmanProcessRequest, hm, hu, hq, hl] at h
                    · simp only [postmanProcessRequest, hm, hu, hq, hl] at h
                      injection h with h'
                      subst h'
                      exact ⟨rfl, fun k hk => hasKey_dictSet_mono _ _ _ k hk⟩
              | arr xs =>
                  simp only [postmanProcessRequest, hm, hu] at h
                  injection h with h'
                  subst h'
                  exact ⟨rfl, fun k hk => hasKey_dictSet_mono _ _ _ k hk⟩
              | str st =>
                  simp only [postmanProcessRequest, hm, hu] at h
                  injection h with h'
                  subst h'
                  exact ⟨rfl, fun k hk => hasKey_dictSet_mono _ _ _ k hk⟩
              | num n =>
                  simp only [postmanProcessRequest, hm, hu] at h
                  injection h with h'
                  subst h'
                  exact ⟨rfl, fun k hk => hasKey_dictSet_mono _ _ _ k hk⟩
              | bool b =>
                  simp only [postmanProcessRequest, hm, hu] at h
                  injection h with h'
                  subst h'
                  exact ⟨rfl, fun k hk => hasKey_dictSet_mono _ _ _ k hk⟩
              | null =>
                  simp only [postmanProcessRequest, hm, hu] at h
                  injection h with h'
                  subst h'
                  exact ⟨rfl, fun k hk => hasKey_dictSet_mono _ _ _ k hk⟩
        | obj mkvs => simp [postmanProcessRequest, hm] at h
        | arr xs => simp [postmanProcessRequest, hm] at h
        | num n => simp [postmanProcessRequest, hm] at h
        | bool b => simp [postmanProcessRequest, hm] at h
        | null => simp [postmanProcessRequest, hm] at h
  | arr xs =>
      simp only [postmanProcessRequest] at h
      injection h with h'
      subst h'
      exact ⟨rfl, fun k hk => hk⟩
  | str st =>
      simp only [postmanProcessRequest] at h
      injection h with h'
      subst h'
      exact ⟨rfl, fun k hk => hk⟩
  | num n =>
      simp only [postmanProcessRequest] at h
      injection h with h'
      subst h'
      exact ⟨rfl, fun k hk => hk⟩
  | bool b =>
      simp only [postmanProcessRequest] at h
      injection h with h'
      subst h'
      exact ⟨rfl, fun k hk => hk⟩
  | null =>
      simp only [postmanProcessRequest] at h
      injection h with h'
      subst h'
      exact ⟨rfl, fun k hk => hk⟩

theorem postmanProcessRequests_ok (rs : List JVal) :
    ∀ (d d' : Details), postmanProcessRequests d rs = .ok d' →
      d'.totalEndpoints = d.totalEndpoints ∧
      (∀ k, hasKey d.methodDistribution k = true → hasKey d'.methodDistribution k = true) := by
  induction rs with
  | nil =>
      intro d d' h
      simp [postmanProcessRequests] at h
      subst h
      exact ⟨rfl, fun k hk => hk⟩
  | cons r rest ih =>
      intro d d' h
      rcases h1 : postmanProcessRequest d r with e1 | d1
      · simp [postmanProcessRequests, h1, Bind.bind, Except.bind] at h
      · simp only [postmanProcessRequests, h1, Bind.bind, Except.bind] at h
        obtain ⟨he1, hk1⟩ := postmanProcessRequest_ok h1
        obtain ⟨he2, hk2⟩ := ih d1 d' h
        exact ⟨he2.trans he1, fun k hk => hk2 k (hk1 k hk)⟩

theorem parse_postman_spec {content : JVal} {d : Details}
    (h : parse_postman_content content = .ok d) :
    ∃ items requests,
      pyGetItem content "item" = .ok items ∧
      extract_postman_items items = .ok requests ∧
      d.totalEndpoints = requests.length ∧
      (∀ k, k ∈ fixedKeys → k ∈ d.methodDistribution.map Prod.fst) := by
  rcases h1 : pyGetItem content "item" with e | items
  · simp [parse_postman_content, h1, Bind.bind, Except.bind] at h
  · rcases h2 : extract_postman_items items with e | requests
    · simp [parse_postman_content, h1, h2, Bind.bind, Except.bind] at h
    · simp only [parse_postman_content, h1, h2, Bind.bind, Except.bind] at h
      obtain ⟨he, hk⟩ := postmanProcessRequests_ok requests _ d h
      refine ⟨items, requests, rfl, h2, by simpa using he, ?_⟩
      intro k hkf
      have hinit : hasKey fixedDistribution k = true := by
        fin_cases hkf <;> rfl
      exact (hasKey_iff_mem _ _).mp (hk k hinit)

/-! ### Concrete evaluations of the postman parser

`extract_postman_items` is compiled by well-founded recursion, so it
does not reduce definitionally; these evaluations rewrite with its
equations first and finish the (structurally recursive) per-request
loop by `rfl`. -/

theorem parse_postman_noMethod_eval :
    parse_postman_content postmanNoMethodDoc = .ok postmanNoMethodDetails := by
  have hx : extract_postman_items (JVal.arr
      [JVal.obj [("request", JVal.obj
        [("url", JVal.obj [("query", JVal.arr [JVal.str "a", JVal.str "b"])])])]]) =
      .ok [JVal.obj [("url", JVal.obj [("query", JVal.arr [JVal.str "a", JVal.str "b"])])]] := by
    simp [extract_postman_items, extractFromList, extractItem, findVal, Bind.bind, Except.bind]
  have h1 : parse_postman_content postmanNoMethodDoc =
      (extract_postman_items (JVal.arr
        [JVal.obj [("request", JVal.obj
          [("url", JVal.obj [("query", JVal.arr [JVal.str "a", JVal.str "b"])])])]])).bind
        (fun requests =>
          postmanProcessRequests { initDetails with totalEndpoints := requests.length } requests) :=
    rfl
  rw [h1, hx]
  rfl

theorem parse_postman_foo_eval :
    parse_postman_content postmanFooMethodDoc = .ok postmanFooMethodDetails := by
  have hx : extract_postman_items (JVal.arr
      [JVal.obj [("request", JVal.obj [("method", JVal.str "foo")])]]) =
      .ok [JVal.obj [("method", JVal.str "foo")]] := by
    simp [extract_postman_items, extractFromList, extractItem, findVal, Bind.bind, Except.bind]
  have h1 : parse_postman_content postmanFooMethodDoc =
      (extract_postman_items (JVal.arr
        [JVal.obj [("request", JVal.obj [("method", JVal.str "foo")])]])).bind
        (fun requests =>
          postmanProcessRequests { initDetails with totalEndpoints := requests.length } requests) :=
    rfl
  rw [h1, hx]
  rfl

theorem parse_postman_get_eval :
    parse_postman_content postmanGetDoc = .ok postmanGetDetails := by
  have hx : extract_postman_items (JVal.arr
      [JVal.obj [("request", JVal.obj [("method", JVal.str "get")])]]) =
      .ok [JVal.obj [("method", JVal.str "get")]] := by
    simp [extract_postman_items, extractFromList, extractItem, findVal, Bind.bind, Except.bind]
  have h1 : parse_postman_content postmanGetDoc =
      (extract_postman_items (JVal.arr
        [JVal.obj [("request", JVal.obj [("method", JVal.str "get")])]])).bind
        (fun requests =>
          postmanProcessRequests { initDetails with totalEndpoints := requests.length } requests) :=
    rfl
  rw [h1, hx]
  rfl

/-! ### C6: the swagger extractor on absent or malformed paths -/

/-- C6 counterexample: a `"paths"` value that is not a mapping, and a
path-info value that is not a mapping, both make the swagger extractor
raise `AttributeError` (caught per-file by the aggregator) instead of
being treated as empty or skipped. -/
theorem swagger_malformed_counterexample :
    parse_swagger_content (JVal.obj [("paths", JVal.arr [])]) = .error "AttributeError" ∧
    parse_swagger_content (JVal.obj [("paths", JVal.obj [("/a", JVal.num 3)])]) =
      .error "AttributeError" :=
  ⟨rfl, rfl⟩

/-- C6 amended: when `"paths"` is absent the extractor returns the
all-zero summary without failure; but when `"paths"` is present and
not a mapping, or when (the first) path-info value is not a mapping,
the extractor raises `AttributeError` rather than skipping silently. -/
theorem swagger_paths_handling (kvs : List (String × JVal)) :
    (findVal kvs "paths" = none → parse_swagger_content (JVal.obj kvs) = .ok initDetails) ∧
    (∀ v, findVal kvs "paths" = some v → isMapping v = false →
      parse_swagger_content (JVal.obj kvs) = .error "AttributeError") ∧
    (∀ p v rest, findVal kvs "paths" = some (JVal.obj ((p, v) :: rest)) →
      isMapping v = false →
      parse_swagger_content (JVal.obj kvs) = .error "AttributeError") := by
  refine ⟨?_, ?_, ?_⟩
  · intro h
    rw [parse_swagger_content, h]
    simp [swaggerProcessPaths]
  · intro v h hv
    cases v with
    | obj pes => simp [isMapping] at hv
    | arr xs => rw [parse_swagger_content, h]; rfl
    | str st => rw [parse_swagger_content, h]; rfl
    | num n => rw [parse_swagger_content, h]; rfl
    | bool b => rw [parse_swagger_content, h]; rfl
    | null => rw [parse_swagger_content, h]; rfl
  · intro p v rest h hv
    rw [parse_swagger_content, h]
    cases v with
    | obj ops => simp [isMapping] at hv
    | arr xs => simp [swaggerProcessPaths, swaggerProcessPath, Bind.bind, Except.bind]
    | str st => simp [swaggerProcessPaths, swaggerProcessPath, Bind.bind, Except.bind]
    | num n => simp [swaggerProcessPaths, swaggerProcessPath, Bind.bind, Except.bind]
    | bool b => simp [swaggerProcessPaths, swaggerProcessPath, Bind.bind, Except.bind]
    | null => simp [swaggerProcessPaths, swaggerProcessPath, Bind.bind, Except.bind]

/-- C6 witness: a swagger document without `"paths"` yields the
all-zero summary, and one whose `"paths"` is a string raises. -/
theorem swagger_paths_handling_witness :
    parse_swagger_content (JVal.obj [("swagger", JVal.str "2.0")]) = .ok initDetails ∧
    parse_swagger_content (JVal.obj [("paths", JVal.str "oops")]) = .error "AttributeError" :=
  ⟨(swagger_paths_handling [("swagger", JVal.str "2.0")]).1 rfl,
   (swagger_paths_handling [("paths", JVal.str "oops")]).2.1 (JVal.str "oops") rfl rfl⟩

/-! ### C7: requests without a method -/

/-- C7 counterexample: a flattened request without a `"method"` key
whose `url.query` array has two entries still contributes `0` to
`"Total Parameters"` (the query length is only added inside the
`'method' in request` branch), refuting the claim's "unless a query
array is present" exception. -/
theorem postman_no_method_counterexample :
    parse_postman_content postmanNoMethodDoc = .ok postmanNoMethodDetails ∧
    pyLen (JVal.arr [JVal.str "a", JVal.str "b"]) = .ok 2 ∧
    postmanNoMethodDetails.totalParameters = 0 :=
  ⟨parse_postman_noMethod_eval, rfl, rfl⟩

/-- C7 amended: a flattened request that lacks a `"method"` key (or is
not a mapping) leaves the summary completely unchanged — it
contributes nothing to the distribution and nothing to the parameter
total, even when a `url.query` array is present — while still counting
toward `"Total Requests/Endpoints"`, which equals the number of
flattened requests (the loop never changes it). -/
theorem postman_methodless_contributes_nothing :
    (∀ (d : Details) (r : JVal), lacksMethod r = true → postmanProcessRequest d r = .ok d) ∧
    (∀ (rs : List JVal) (d d' : Details), postmanProcessRequests d rs = .ok d' →
      d'.totalEndpoints = d.totalEndpoints) ∧
    (∀ (content : JVal) (d : Details), parse_postman_content content = .ok d →
      ∃ items requests,
        pyGetItem content "item" = .ok items ∧
        extract_postman_items items = .ok requests ∧
        d.totalEndpoints = requests.length) := by
  refine ⟨?_, ?_, ?_⟩
  · intro d r hr
    cases r with
    | obj kvs =>
        have : objHasKey kvs "method" = false := by
          simpa [lacksMethod] using hr
        rw [postmanProcessRequest, findVal_eq_none_of_not_objHasKey this]
    | arr xs => rfl
    | str st => rfl
    | num n => rfl
    | bool b => rfl
    | null => rfl
  · intro rs d d' h
    exact (postmanProcessRequests_ok rs d d' h).1
  · intro content d h
    obtain ⟨items, requests, h1, h2, h3, _⟩ := parse_postman_spec h
    exact ⟨items, requests, h1, h2, h3⟩

/-- C7 witness: the loop body on the concrete method-less request with
a two-element query leaves the initial summary untouched. -/
theorem postman_methodless_witness :
    postmanProcessRequest initDetails
      (JVal.obj [("url", JVal.obj [("query", JVal.arr [JVal.str "a", JVal.str "b"])])]) =
      .ok initDetails :=
  (postman_methodless_contributes_nothing).1 initDetails
    (JVal.obj [("url", JVal.obj [("query", JVal.arr [JVal.str "a", JVal.str "b"])])])
    (by rfl)

/-! ### C9: the distribution key set -/

/-- C9 counterexample: a Postman request with method `"foo"` makes
`.get(method, 0) + 1` insert the fresh key `"FOO"`, so the returned
distribution's key set is strictly larger than the fixed key set. -/
theorem distribution_extra_key_counterexample :
    parse_postman_content postmanFooMethodDoc = .ok postmanFooMethodDetails ∧
    postmanFooMethodDetails.methodDistribution.map Prod.fst ≠ fixedKeys ∧
    "FOO" ∉ fixedKeys :=
  ⟨parse_postman_foo_eval, by decide, by decide⟩

/-- C9 amended: every summary the swagger extractor returns carries
exactly the fixed key set, and every summary the postman extractor
returns contains at least all fixed keys — but a postman summary may
carry additional keys, namely the upper-cased methods of requests
whose method is outside the fixed set. -/
theorem distribution_keys (content : JVal) (d : Details) :
    (parse_swagger_content content = .ok d →
      d.methodDistribution.map Prod.fst = fixedKeys) ∧
    (parse_postman_content content = .ok d →
      ∀ k, k ∈ fixedKeys → k ∈ d.methodDistribution.map Prod.fst) := by
  constructor
  · intro h
    exact (parse_swagger_spec content d h).1
  · intro h
    obtain ⟨_, _, _, _, _, hK⟩ := parse_postman_spec h
    exact hK

/-- C9 witness: the swagger example summary carries exactly the fixed
keys; the postman example summary contains them all. -/
theorem distribution_keys_witness :
    swaggerExampleDetails.methodDistribution.map Prod.fst = fixedKeys ∧
    (∀ k, k ∈ fixedKeys → k ∈ postmanGetDetails.methodDistribution.map Prod.fst) :=
  ⟨(distribution_keys swaggerExampleDoc swaggerExampleDetails).1 (by rfl),
   (distribution_keys postmanGetDoc postmanGetDetails).2 parse_postman_get_eval⟩

/-! ### C10: endpoint total versus distribution total -/

/-- C10: whenever the swagger extractor returns a summary the endpoint
total equals the sum of all distribution counts (they are incremented
in lockstep); the postman extractor does not guarantee this — its
endpoint total is the number of flattened requests whether or not they
carry a method, as the concrete method-less collection shows (1
endpoint, all buckets zero). -/
theorem endpoints_vs_distribution :
    (∀ (content : JVal) (d : Details), parse_swagger_content content = .ok d →
      d.totalEndpoints = distSum d.methodDistribution) ∧
    (parse_postman_content postmanNoMethodDoc = .ok postmanNoMethodDetails ∧
      postmanNoMethodDetails.totalEndpoints ≠ distSum postmanNoMethodDetails.methodDistribution) := by
  refine ⟨?_, parse_postman_noMethod_eval, by decide⟩
  intro content d h
  obtain ⟨_, he, _, hs⟩ := parse_swagger_spec content d h
  rw [he, hs]

/-- C10 witness: the swagger example summary satisfies the lockstep
equality (3 endpoints, distribution summing to 3). -/
theorem endpoints_vs_distribution_witness :
    swaggerExampleDetails.totalEndpoints = distSum swaggerExampleDetails.methodDistribution :=
  (endpoints_vs_distribution).1 swaggerExampleDoc swaggerExampleDetails (by rfl)

/-! ### C8: one failing file never aborts the batch -/

theorem analyze_directory_append (l1 l2 : List (String × Except String JVal)) :
    analyze_directory (l1 ++ l2) =
      ((analyze_directory l1).1 ++ (analyze_directory l2).1,
       (analyze_directory l1).2 ++ (analyze_directory l2).2) := by
  induction l1 with
  | nil => simp [analyze_directory]
  | cons e rest ih =>
      obtain ⟨f, v⟩ := e
      by_cases hm : matchesExtension f = true
      · rcases hp : processFile v with msg | res <;>
          simp [analyze_directory, hm, hp, ih]
      · simp [analyze_directory, hm, ih]

theorem analyze_directory_names (l : List (String × Except String JVal)) :
    (∀ x ∈ (analyze_directory l).1, x.1 ∈ l.map Prod.fst) ∧
    (∀ x ∈ (analyze_directory l).2, x.1 ∈ l.map Prod.fst) := by
  induction l with
  | nil => simp [analyze_directory]
  | cons e rest ih =>
      obtain ⟨f, v⟩ := e
      obtain ⟨ih1, ih2⟩ := ih
      by_cases hm : matchesExtension f = true
      · rcases hp : processFile v with msg | res
        · refine ⟨?_, ?_⟩ <;> intro x hx <;>
            simp [analyze_directory, hm, hp] at hx
          · exact List.mem_cons_of_mem _ (ih1 x hx)
          · rcases hx with hx | hx
            · simp [hx]
            · exact List.mem_cons_of_mem _ (ih2 x hx)
        · refine ⟨?_, ?_⟩ <;> intro x hx <;>
            simp [analyze_directory, hm, hp] at hx
          · rcases hx with hx | hx
            · simp [hx]
            · exact List.mem_cons_of_mem _ (ih1 x hx)
          · exact List.mem_cons_of_mem _ (ih2 x hx)
      · refine ⟨?_, ?_⟩ <;> intro x hx <;>
          simp [analyze_directory, hm] at hx
        · exact List.mem_cons_of_mem _ (ih1 x hx)
        · exact List.mem_cons_of_mem _ (ih2 x hx)

/-- C8: a matching file whose decode or extraction raises contributes
exactly one `(filename, message)` entry to the error list, appears
nowhere in the results, and leaves every other file's processing
untouched — the batch completes with the results and errors of the
files before and after it, in order. -/
theorem analyze_directory_error_isolation
    (pre post : List (String × Except String JVal)) (f : String)
    (v : Except String JVal) (msg : String)
    (hext : matchesExtension f = true)
    (hfail : processFile v = .error msg)
    (huniq : f ∉ (pre ++ post).map Prod.fst) :
    (analyze_directory (pre ++ (f, v) :: post)).2 =
      (analyze_directory pre).2 ++ (f, msg) :: (analyze_directory post).2 ∧
    (analyze_directory (pre ++ (f, v) :: post)).2.countP (fun e => e.1 == f) = 1 ∧
    (analyze_directory (pre ++ (f, v) :: post)).1 =
      (analyze_directory pre).1 ++ (analyze_directory post).1 ∧
    (∀ r ∈ (analyze_directory (pre ++ (f, v) :: post)).1, r.1 ≠ f) := by
  have hpre : f ∉ pre.map Prod.fst := by
    intro hx; exact huniq (by simp [hx])
  have hpost : f ∉ post.map Prod.fst := by
    intro hx; exact huniq (by simp [hx])
  have hmid : analyze_directory ((f, v) :: post) =
      ((analyze_directory post).1, (f, msg) :: (analyze_directory post).2) := by
    simp [analyze_directory, hext, hfail]
  have hsplit := analyze_directory_append pre ((f, v) :: post)
  rw [hmid] at hsplit
  have herr : (analyze_directory (pre ++ (f, v) :: post)).2 =
      (analyze_directory pre).2 ++ (f, msg) :: (analyze_directory post).2 := by
    rw [hsplit]
  have hres : (analyze_directory (pre ++ (f, v) :: post)).1 =
      (analyze_directory pre).1 ++ (analyze_directory post).1 := by
    rw [hsplit]
  refine ⟨herr, ?_, hres, ?_⟩
  · rw [herr]
    have hzpre : (analyze_directory pre).2.countP (fun e => e.1 == f) = 0 := by
      rw [List.countP_eq_zero]
      intro e he
      have := (analyze_directory_names pre).2 e he
      simp only [beq_iff_eq]
      intro hef
      exact hpre (hef ▸ this)
    have hzpost : (analyze_directory post).2.countP (fun e => e.1 == f) = 0 := by
      rw [List.countP_eq_zero]
      intro e he
      have := (analyze_directory_names post).2 e he
      simp only [beq_iff_eq]
      intro hef
      exact hpost (hef ▸ this)
    rw [List.countP_append, hzpre, List.countP_cons, hzpost]
    simp
  · intro r hr
    rw [hres] at hr
    rcases List.mem_append.mp hr with hr | hr
    · have := (analyze_directory_names pre).1 r hr
      intro hef
      exact hpre (hef ▸ this)
    · have := (analyze_directory_names post).1 r hr
      intro hef
      exact hpost (hef ▸ this)

/-- C8 witness: a concrete three-file batch — a good Postman file, a
malformed file, a good Swagger file — where the malformed file yields
exactly one error entry, no result entry, and the other two files are
processed as if it were absent. -/
theorem analyze_directory_error_isolation_witness :
    (analyze_directory (batchPre ++ ("bad.json", badDecode) :: batchPost)).2 =
      (analyze_directory batchPre).2 ++
        ("bad.json", "Expecting value: line 1 column 1 (char 0)") ::
          (analyze_directory batchPost).2 ∧
    (analyze_directory (batchPre ++ ("bad.json", badDecode) :: batchPost)).2.countP
      (fun e => e.1 == "bad.json") = 1 ∧
    (analyze_directory (batchPre ++ ("bad.json", badDecode) :: batchPost)).1 =
      (analyze_directory batchPre).1 ++ (analyze_directory batchPost).1 ∧
    (∀ r ∈ (analyze_directory (batchPre ++ ("bad.json", badDecode) :: batchPost)).1,
      r.1 ≠ "bad.json") :=
  analyze_directory_error_isolation batchPre batchPost "bad.json" badDecode
    "Expecting value: line 1 column 1 (char 0)" (by rfl) (by rfl) (by decide)

end APIScoper
